import Mathlib

/-!
Verification of the provider dispatch and execution engine of the
`agentevo` repository (packages/core/src/evaluation/providers).

The TypeScript sources are shallowly embedded: pure functions become Lean
functions, the sequential loops become structural recursions carrying the
loop's accumulators, JavaScript `Set`/`Map` objects become insertion-ordered
lists with explicit insert-if-absent / association-list update helpers, and
the host services (filesystem, child processes, the external session
harness) become explicit parameters or event traces.

POSIX path handling (`node:path`) is modelled concretely: a path is
absolute when it starts with a slash, `path.resolve` prepends the current
working directory to relative paths, `path.join` inserts a single slash,
`path.basename` takes the last slash-separated component and `path.sep`
is the forward slash.  Dot-segment normalization is not modelled; none of
the verified properties depend on it.
-/

/-! JavaScript string primitives are modelled on the character list of a
`String` by structural recursion, so that every definition evaluates
inside the kernel.  `jsTrim` models `String.prototype.trim` (ASCII
whitespace), `strSplitOn` models `split` with a one-character separator,
`strJoin` models `Array.prototype.join`. -/

/-- `String.prototype.trim`: drop whitespace from both ends. -/
def jsTrim (s : String) : String :=
  String.mk (((s.toList.dropWhile Char.isWhitespace).reverse.dropWhile
    Char.isWhitespace).reverse)

/-- `split` on a one-character separator, over character lists:
`"a/b".split("/") = ["a","b"]`, `"".split("/") = [""]`. -/
def splitOnChar (sep : Char) : List Char → List (List Char)
  | [] => [[]]
  | c :: rest =>
      let r := splitOnChar sep rest
      if c = sep then [] :: r
      else
        match r with
        | g :: gs => (c :: g) :: gs
        | [] => [[c]]

/-- `String.prototype.split` with a one-character separator. -/
def strSplitOn (sep : Char) (s : String) : List String :=
  (splitOnChar sep s.toList).map String.mk

/-- `Array.prototype.join`. -/
def strJoin (sep : String) : List String → String
  | [] => ""
  | [x] => x
  | x :: rest => x ++ sep ++ strJoin sep rest

/-- Model of `path.isAbsolute` (POSIX). -/
def pathIsAbsolute (p : String) : Bool :=
  match p.toList with
  | c :: _ => c = '/'
  | [] => false

/-- Model of `path.resolve` (POSIX) against a fixed working directory. -/
def pathResolve (cwd p : String) : String :=
  if pathIsAbsolute p then p else cwd ++ "/" ++ p

/-- Model of `path.join` (POSIX) for two components. -/
def pathJoin (a b : String) : String :=
  a ++ "/" ++ b

/-- Model of `path.basename` (POSIX): last slash-separated component. -/
def pathBasename (p : String) : String :=
  (strSplitOn '/' p).getLastD p

/-- `absolutePath.split(path.sep).join("/")` with `path.sep = "/"`
(the separator normalization in `collectGuidelineFiles`). -/
def pathNormalizeSeps (p : String) : String :=
  strJoin "/" (strSplitOn '/' p)

/-- JavaScript `Set.add`: append the element unless it is already present
(insertion order preserved). -/
def insertIfAbsent (l : List String) (x : String) : List String :=
  if l.contains x then l else l ++ [x]

/-- Association-list read for the `Map<string, number>` of
`mirrorAttachments` (`nameCounts.get(baseName) ?? 0`). -/
def lookupCount (counts : List (String × Nat)) (k : String) : Nat :=
  match counts.lookup k with
  | some n => n
  | none => 0

/-- Association-list write for `nameCounts.set(baseName, count + 1)`. -/
def setCount : List (String × Nat) → String → Nat → List (String × Nat)
  | [], k, v => [(k, v)]
  | (k', v') :: rest, k, v =>
      if k' = k then (k, v) :: rest else (k', v') :: setCount rest k v

/-- A provider request (`ProviderRequest`): prompt text, optional raw
attachment paths and optional guideline glob patterns.  The cancellation
signal is modelled where it is consulted. -/
structure ProviderRequest where
  prompt : String
  attachments : Option (List String) := none
  guideline_patterns : Option (List String) := none
deriving DecidableEq, Repr

/-- `normalizeAttachments` (preread.ts): absent or empty input yields the
"no attachments" sentinel; otherwise resolve each path against the working
directory and de-duplicate preserving first-seen order. -/
def normalizeAttachments (cwd : String) (attachments : Option (List String)) :
    Option (List String) :=
  match attachments with
  | none => none
  | some l =>
      if l.isEmpty then none
      else some (l.foldl (fun acc a =>
        let absolutePath := pathResolve cwd a
        if acc.contains absolutePath then acc else acc ++ [absolutePath]) [])

/-- The loop of `collectGuidelineFiles` (preread.ts): membership in the
override set classifies unconditionally; otherwise the separator-normalized
absolute path is tested by `isGuidelineFile` (a function of `yaml-parser.ts`,
abstracted here as the parameter `isG`).  The accumulator is the
insertion-ordered `unique` map. -/
def collectLoop (isG : String → Option (List String) → Bool) (cwd : String)
    (patterns : Option (List String)) (overrides : List String) :
    List String → List String → List String
  | [], acc => acc
  | a :: rest, acc =>
      let absolutePath := pathResolve cwd a
      if overrides.contains absolutePath then
        collectLoop isG cwd patterns overrides rest (insertIfAbsent acc absolutePath)
      else
        if isG (pathNormalizeSeps absolutePath) patterns then
          collectLoop isG cwd patterns overrides rest (insertIfAbsent acc absolutePath)
        else
          collectLoop isG cwd patterns overrides rest acc

/-- `collectGuidelineFiles` (preread.ts).  The optional `overrides` set is
modelled as a list; `undefined` corresponds to the empty list (membership in
`undefined` is always falsy). -/
def collectGuidelineFiles (isG : String → Option (List String) → Bool) (cwd : String)
    (attachments : Option (List String)) (patterns : Option (List String))
    (overrides : List String) : List String :=
  match attachments with
  | none => []
  | some l => if l.isEmpty then [] else collectLoop isG cwd patterns overrides l []

/-- `collectAttachmentFiles` (preread.ts): resolve and de-duplicate,
first-seen order. -/
def collectAttachmentFiles (cwd : String) (attachments : Option (List String)) :
    List String :=
  match attachments with
  | none => []
  | some l =>
      if l.isEmpty then []
      else l.foldl (fun acc a =>
        let absolutePath := pathResolve cwd a
        if acc.contains absolutePath then acc else acc ++ [absolutePath]) []

/-- `PromptDocumentOptions` (preread.ts). -/
structure PromptDocumentOptions where
  guidelinePatterns : Option (List String) := none
  guidelineOverrides : Option (List String) := none
deriving DecidableEq, Repr

/-- The two file lists computed by `buildPromptDocument` (preread.ts):
the guideline files and the attachment files that are not guideline files
(`attachmentFiles.filter((file) => !guidelineFiles.includes(file))`). -/
def prereadLists (isG : String → Option (List String) → Bool) (cwd : String)
    (request : ProviderRequest) (attachments : Option (List String))
    (options : Option PromptDocumentOptions) : List String × List String :=
  let patterns :=
    match options.bind (·.guidelinePatterns) with
    | some p => some p
    | none => request.guideline_patterns
  let overrides := (options.bind (·.guidelineOverrides)).getD []
  let guidelineFiles := collectGuidelineFiles isG cwd attachments patterns overrides
  let attachmentFiles := collectAttachmentFiles cwd attachments
  (guidelineFiles, attachmentFiles.filter (fun file => !(guidelineFiles.contains file)))

/-- `pathToFileUri` (preread.ts): backslashes become slashes; a
drive-letter path gets three slashes after the scheme, any other path two. -/
def pathToFileUri (cwd filePath : String) : String :=
  let absolutePath := if pathIsAbsolute filePath then filePath else pathResolve cwd filePath
  let normalizedChars := absolutePath.toList.map (fun c => if c = '\\' then '/' else c)
  let normalizedPath := String.mk normalizedChars
  match normalizedChars with
  | c :: ':' :: '/' :: _ =>
      if c.isAlpha then "file:///" ++ normalizedPath else "file://" ++ normalizedPath
  | _ => "file://" ++ normalizedPath

/-- `buildMandatoryPrereadBlock` (preread.ts). -/
def buildMandatoryPrereadBlock (cwd : String)
    (guidelineFiles attachmentFiles : List String) : String :=
  if guidelineFiles.isEmpty ∧ attachmentFiles.isEmpty then ""
  else
    let buildList : List String → List String := fun files =>
      files.map (fun absolutePath =>
        "* [" ++ pathBasename absolutePath ++ "](" ++ pathToFileUri cwd absolutePath ++ ")")
    let sections : List String :=
      (if guidelineFiles.isEmpty then [] else
        ["Read all guideline files:\n" ++ strJoin "\n" (buildList guidelineFiles) ++ "."]) ++
      (if attachmentFiles.isEmpty then [] else
        ["Read all attachment files:\n" ++ strJoin "\n" (buildList attachmentFiles) ++ "."]) ++
      ["If any file is missing, fail with ERROR: missing-file <filename> and stop.",
       "Then apply system_instructions on the user query below."]
    strJoin "\n" sections

/-- `buildPromptDocument` (preread.ts): optional preread block followed by
the user-query section containing the trimmed prompt. -/
def buildPromptDocument (isG : String → Option (List String) → Bool) (cwd : String)
    (request : ProviderRequest) (attachments : Option (List String))
    (options : Option PromptDocumentOptions) : String :=
  let lists := prereadLists isG cwd request attachments options
  let prereadBlock := buildMandatoryPrereadBlock cwd lists.1 lists.2
  let parts : List String :=
    (if prereadBlock.toList.isEmpty then [] else ["\n", prereadBlock]) ++
    ["\n[[ ## user_query ## ]]\n", jsTrim request.prompt]
  jsTrim (strJoin "\n" parts)

/-! ### The Codex provider's attachment mirroring (codex.ts) -/

/-- The fixed `files/` subdirectory name (`FILES_DIR` in codex.ts). -/
def FILES_DIR : String := "files"

/-- The loop body of `CodexProvider.mirrorAttachments` (codex.ts), written
as a structural recursion over the remaining attachments.  The loop
accumulators are carried as arguments: the `nameCounts` map, the
`mirrored` list and the `guidelineMirrors` set (insertion-ordered, set
semantics). -/
def mirrorLoop (cwd filesRoot : String) (guidelineOriginals : List String) :
    List String → List (String × Nat) → List String → List String →
    List String × List String
  | [], _, mirrored, guidelineMirrors => (mirrored, guidelineMirrors)
  | attachment :: rest, nameCounts, mirrored, guidelineMirrors =>
      let absoluteSource := pathResolve cwd attachment
      let baseName := pathBasename absoluteSource
      let count := lookupCount nameCounts baseName
      let finalName := if count = 0 then baseName else baseName ++ "." ++ toString count
      let destination := pathJoin filesRoot finalName
      let resolvedDestination := pathResolve cwd destination
      mirrorLoop cwd filesRoot guidelineOriginals rest
        (setCount nameCounts baseName (count + 1))
        (mirrored ++ [resolvedDestination])
        (if guidelineOriginals.contains absoluteSource then
          insertIfAbsent guidelineMirrors resolvedDestination
        else guidelineMirrors)

/-- `CodexProvider.mirrorAttachments` (codex.ts): absent or empty input
yields no mirrored attachments and an empty guideline-mirror set; otherwise
every attachment is copied into `workspaceRoot/files` under its base name,
disambiguated with a numeric suffix on collision; the second component is
the set of mirrored paths whose original resolved path lies in
`guidelineOriginals`. -/
def mirrorAttachments (cwd : String) (attachments : Option (List String))
    (workspaceRoot : String) (guidelineOriginals : List String) :
    Option (List String) × List String :=
  match attachments with
  | none => (none, [])
  | some l =>
      if l.isEmpty then (none, [])
      else
        let filesRoot := pathJoin workspaceRoot FILES_DIR
        let r := mirrorLoop cwd filesRoot guidelineOriginals l [] [] []
        (some r.1, r.2)

/-- The attachment-classification data flow of `CodexProvider.invoke`
(codex.ts lines 61–77): normalize the request's attachments, classify them
by pattern (no overrides), resolve that classification into the
`originalGuidelines` set, mirror the attachments into the workspace passing
that set, and finally compute the two preread lists of the prompt document
with the guideline mirrors as the unconditional override set. -/
def codexInvokeLists (isG : String → Option (List String) → Bool)
    (cwd workspaceRoot : String) (request : ProviderRequest) :
    (Option (List String) × List String) × (List String × List String) :=
  let attachments := normalizeAttachments cwd request.attachments
  let originalGuidelines :=
    (collectGuidelineFiles isG cwd attachments request.guideline_patterns []).map
      (pathResolve cwd)
  let mg := mirrorAttachments cwd attachments workspaceRoot originalGuidelines
  (mg, prereadLists isG cwd request mg.1
    (some { guidelinePatterns := request.guideline_patterns,
            guidelineOverrides := some mg.2 }))

/-! ### The VS Code provider's batch dispatch (vscode.ts)

The external session harness (`dispatchBatchAgent`) is opaque: its reply is
an input of the embedded `invokeBatch`.  File reads are modelled by a
function from paths to contents. -/

/-- The session harness's reply (`dispatchBatchAgent` result): exit code,
optional response-reference list, optional error message. -/
structure BatchSession where
  exitCode : Int
  responseFiles : Option (List String) := none
  error : Option String := none
deriving DecidableEq, Repr

/-- The VS Code provider configuration fields consulted by `invokeBatch`. -/
structure VSCodeResolvedConfig where
  dryRun : Bool
deriving DecidableEq, Repr

/-- One element of `invokeBatch`'s result: answer text plus the diagnostic
fields of `raw` that vary per response (`inputFiles` appears as
`attachments` in the preread-era revision of vscode.ts; both revisions
carry the same values). -/
structure VSCodeBatchResponse where
  text : String
  attachments : Option (List String)
  allAttachments : Option (List String)
  responseFile : Option String
deriving DecidableEq, Repr

/-- `mergeInputFiles` / `mergeAttachments` (vscode.ts): the de-duplicated
union, in first-insertion order, of the per-request normalized lists;
`undefined` when the union is empty. -/
def mergeAttachments (cwd : String) (all : List (Option (List String))) :
    Option (List String) :=
  let deduped := all.foldl (fun acc o =>
    match o with
    | none => acc
    | some l => l.foldl (fun acc a => insertIfAbsent acc (pathResolve cwd a)) acc) []
  if deduped.isEmpty then none else some deduped

/-- The response-reading loop of `invokeBatch`
(`for (const [index, responseFile] of session.responseFiles.entries())`),
with the running index carried explicitly. -/
def readBatchResponses (fileContents : String → String)
    (normalized : List (ProviderRequest × Option (List String)))
    (combined : Option (List String)) :
    List String → Nat → List VSCodeBatchResponse
  | [], _ => []
  | responseFile :: rest, index =>
      { text := fileContents responseFile
        attachments :=
          match normalized.get? index with
          | some p => p.2
          | none => none
        allAttachments := combined
        responseFile := some responseFile } ::
        readBatchResponses fileContents normalized combined rest (index + 1)

/-- `VSCodeProvider.invokeBatch` (vscode.ts): empty request list
short-circuits; a failed session or a missing response list is a fatal
error; in dry-run mode one empty response per request is returned without
reading any file and without comparing counts; otherwise a count mismatch
is a fatal batch error, and on equality the responses are read in request
order. -/
def invokeBatch (cwd : String) (config : VSCodeResolvedConfig)
    (requests : List ProviderRequest) (session : BatchSession)
    (fileContents : String → String) :
    Except String (List VSCodeBatchResponse) :=
  if requests.isEmpty then .ok []
  else
    let normalized := requests.map (fun req => (req, normalizeAttachments cwd req.attachments))
    let combined := mergeAttachments cwd (normalized.map (·.2))
    -- The source guards once: `if (session.exitCode !== 0 || !session.responseFiles)`;
    -- both disjuncts throw the same error, so they are tested here in two steps.
    match session.responseFiles with
    | none =>
        .error (session.error.getD "VS Code subagent did not produce batch responses")
    | some responseFiles =>
        if session.exitCode ≠ 0 then
          .error (session.error.getD "VS Code subagent did not produce batch responses")
        else if config.dryRun then
          .ok (normalized.map (fun p =>
            { text := ""
              attachments := p.2
              allAttachments := combined
              responseFile := none }))
        else if responseFiles.length ≠ requests.length then
          .error ("VS Code batch returned " ++ toString responseFiles.length ++
            " responses for " ++ toString requests.length ++ " requests")
        else
          .ok (readBatchResponses fileContents normalized combined responseFiles 0)

/-! ### The Codex response extractor (codex.ts) -/

/-- A parsed JSON document (`JSON.parse` result).  `undefined` values are
represented by `Option Json` at use sites. -/
inductive Json where
  | str : String → Json
  | num : Int → Json
  | bool : Bool → Json
  | null : Json
  | arr : List Json → Json
  | obj : List (String × Json) → Json
deriving Repr

/-- JavaScript property read `record[key]` on a parsed JSON value:
defined for objects, `undefined` (here `none`) for every other shape
(arrays have no named own properties of interest here). -/
def Json.getField : Json → String → Option Json
  | .obj fields, key => fields.lookup key
  | _, _ => none

/-- `typeof value === "object" && value !== null`: true exactly for
objects and arrays. -/
def Json.isObjectLike : Json → Bool
  | .obj _ => true
  | .arr _ => true
  | _ => false

/-- The `"text" in segment` membership test: only objects can carry the
key. -/
def Json.hasTextKey : Json → Bool
  | .obj fields => (fields.lookup "text").isSome
  | _ => false

/-- The per-segment mapping inside `flattenContent`'s array branch:
a string segment is kept, an object-like segment with a `text` key yields
that field when it is a string, and everything else yields `undefined`. -/
def segmentText : Json → Option String
  | .str s => some s
  | .obj fields =>
      match fields.lookup "text" with
      | some (.str s) => some s
      | some _ => none
      | none => none
  | _ => none

/-- `flattenContent` (codex.ts).  The argument is `Option Json` because the
call sites pass possibly-`undefined` field reads.  The array branch keeps
the non-empty per-segment strings and joins them with `" \n"` (a space
followed by a newline); an empty selection yields `undefined`. -/
def flattenContent : Option Json → Option String
  | some (.str s) => some s
  | some (.arr segments) =>
      let parts := (segments.map segmentText).reduceOption.filter
        (fun part => part.length > 0)
      if parts.length > 0 then some (strJoin " \n" parts) else none
  | some (.obj fields) =>
      match fields.lookup "text" with
      | some (.str s) => some s
      | some _ => none
      | none => none
  | _ => none

/-- JavaScript string truthiness applied to `string | undefined`
(`if (flattened)`): the empty string is falsy. -/
def strTruthy : Option String → Option String
  | some s => if s.isEmpty then none else some s
  | none => none

/-- One step of the backwards `messages` scan in `extractAssistantText`:
non-object entries and entries whose `role` is not the string
`"assistant"` are skipped; an assistant entry contributes only when its
flattened content is truthy (non-empty). -/
def assistantEntryText (entry : Json) : Option String :=
  if entry.isObjectLike then
    match entry.getField "role" with
    | some (.str r) =>
        if r = "assistant" then strTruthy (flattenContent (entry.getField "content"))
        else none
    | _ => none
  else none

/-- The error message thrown by `extractAssistantText` at both failure
sites. -/
def missingAssistantMessage : String :=
  "Codex CLI JSON response did not include an assistant message"

/-- `extractAssistantText` (codex.ts): non-object-like documents fail at
once; otherwise the `messages` list (when it is an array) is scanned from
the end for an assistant entry with truthy flattened content, then the
`response.content` field is flattened, then the top-level `output` field;
the first truthy text wins, and exhaustion is the missing-assistant
failure. -/
def extractAssistantText (parsed : Json) : Except String String :=
  if ¬ parsed.isObjectLike then .error missingAssistantMessage
  else
    let fromMessages : Option String :=
      match parsed.getField "messages" with
      | some (.arr messages) => messages.reverse.findSome? assistantEntryText
      | _ => none
    match fromMessages with
    | some flattened => .ok flattened
    | none =>
        let fromResponse : Option String :=
          match parsed.getField "response" with
          | some response =>
              if response.isObjectLike then
                strTruthy (flattenContent (response.getField "content"))
              else none
          | none => none
        match fromResponse with
        | some flattened => .ok flattened
        | none =>
            match strTruthy (flattenContent (parsed.getField "output")) with
            | some flattenedOutput => .ok flattenedOutput
            | none => .error missingAssistantMessage

/-! ### The Codex JSON parsing policy (codex.ts) -/

/-- The opening-brace character, `U+007B`. -/
def openBraceChar : Char := Char.ofNat 123

/-- `trimmed.lastIndexOf` for the opening brace: the character index of the
last occurrence, if any. -/
def lastBraceIndex (s : String) : Option Nat :=
  match (s.toList.reverse).findIdx? (fun c => c = openBraceChar) with
  | some revIdx => some (s.toList.length - 1 - revIdx)
  | none => none

/-- `trimmed.slice(i)`: the suffix starting at character index `i`. -/
def sliceFrom (s : String) (i : Nat) : String :=
  String.mk (s.toList.drop i)

/-- `trimmed.slice(0, 200)`: the first 200 characters. -/
def slicePreview (s : String) : String :=
  String.mk (s.toList.take 200)

/-- The two distinct failures of `parseCodexJson`: the empty-output guard
("Codex CLI produced no output in --json mode") and the invalid-JSON error
whose message embeds the bounded preview ("Codex CLI emitted invalid
JSON: <preview>"). -/
inductive CodexParseFailure where
  | noOutput
  | invalidFormat (preview : String)
deriving DecidableEq, Repr

/-- `parseCodexJson` (codex.ts), parametric in the `JSON.parse` partial
function (`jsonParse s = none` models a `JSON.parse` throw): trim; reject
empty output with the no-output error; try a direct parse; on failure retry
from the last opening brace; if that also fails (or there is no brace),
fail with the invalid-format error carrying the first 200 characters of
the trimmed output. -/
def parseCodexJson (jsonParse : String → Option Json) (output : String) :
    Except CodexParseFailure Json :=
  let trimmed := jsTrim output
  if trimmed.length = 0 then .error .noOutput
  else
    match jsonParse trimmed with
    | some parsed => .ok parsed
    | none =>
        let retried : Option Json :=
          match lastBraceIndex trimmed with
          | some lastBrace => jsonParse (sliceFrom trimmed lastBrace)
          | none => none
        match retried with
        | some parsed => .ok parsed
        | none => .error (.invalidFormat (slicePreview trimmed))

/-! ### The default Codex process runner (codex.ts, `defaultCodexRunner`)

The runner registers three kinds of callbacks whose interleaving the host
decides: the abort listener (`onAbort`, which kills the child), the timeout
timer (which records `timedOut = true` and kills the child) and the stream
and lifecycle events of the child.  The embedding replays an arbitrary
event trace over the closure state of the promise executor; the result is
produced at the first `close` event, as in the source, where `cleanup`
cancels the timer and unhooks the abort listener. -/

/-- An event observed by `defaultCodexRunner`'s callbacks. -/
inductive RunEvent where
  | abortFired
  | timerFired
  | stdoutData (chunk : String)
  | stderrData (chunk : String)
  | close (code : Option Int)
deriving DecidableEq, Repr

/-- The mutable closure state of the promise executor. -/
structure RunnerState where
  stdout : String
  stderr : String
  timedOut : Bool
  killCount : Nat
deriving DecidableEq, Repr

/-- `child.kill("SIGTERM")`: the single termination action shared by the
abort listener and the timeout timer.  Kills are counted, never observed
otherwise, matching a signal that is safe to send repeatedly or late. -/
def killChild (st : RunnerState) : RunnerState :=
  { st with killCount := st.killCount + 1 }

/-- The value `defaultCodexRunner` resolves with (`CodexRunResult`),
extended with the number of kill requests issued for auditability. -/
structure CodexRunResult where
  stdout : String
  stderr : String
  exitCode : Int
  timedOut : Bool
  killCount : Nat
deriving DecidableEq, Repr

/-- Replay of an event trace: data events accumulate, `abort` kills,
the timer marks `timedOut` and kills, and the first `close` resolves the
promise with the state captured at that point (`code` of `null` becomes
`-1`).  A trace with no `close` never resolves (`none`). -/
def runTrace (st : RunnerState) : List RunEvent → Option CodexRunResult
  | [] => none
  | .close code :: _ =>
      some { stdout := st.stdout, stderr := st.stderr,
             exitCode := code.getD (-1), timedOut := st.timedOut,
             killCount := st.killCount }
  | .abortFired :: rest => runTrace (killChild st) rest
  | .timerFired :: rest => runTrace (killChild { st with timedOut := true }) rest
  | .stdoutData chunk :: rest => runTrace { st with stdout := st.stdout ++ chunk } rest
  | .stderrData chunk :: rest => runTrace { st with stderr := st.stderr ++ chunk } rest

/-- `defaultCodexRunner` (codex.ts) over an event trace, starting from the
executor's initial state (`stdout = stderr = ""`, `timedOut = false`). -/
def defaultCodexRunner (events : List RunEvent) : Option CodexRunResult :=
  runTrace { stdout := "", stderr := "", timedOut := false, killCount := 0 } events

/-- Whether an event is the child's `close` event. -/
def RunEvent.isClose : RunEvent → Bool
  | .close _ => true
  | _ => false

/-- Whether an event triggers the shared kill action. -/
def RunEvent.isKillTrigger : RunEvent → Bool
  | .abortFired => true
  | .timerFired => true
  | _ => false

/-! ### The Codex environment validator (codex.ts) -/

/-- The host facts consulted by `validateEnvironment`: the two credential
environment variables, the config-path override, the home directory, the
working directory, the filesystem access check and the stdout of the
platform locator command (`which`/`where`), `none` when it exits
non-zero. -/
structure CodexEnv where
  openaiApiKey : Option String
  codexApiKey : Option String
  codexConfigPath : Option String
  homedir : String
  cwd : String
  fileExists : String → Bool
  whichStdout : String → Option String

/-- The distinct failures of `validateEnvironment`, one per throw site:
missing credentials, missing configuration file (carrying the resolved
path), a path-bearing executable that fails the access check, and a bare
executable name not found on PATH. -/
inductive EnvFailure where
  | missingCredentials
  | missingConfig (configPath : String)
  | executableAccessFailed (resolved : String)
  | executableNotOnPath (candidate : String)
deriving DecidableEq, Repr

/-- `resolveCodexConfigPath` (codex.ts): a non-blank override is trimmed
and resolved; otherwise the fixed `~/.codex/config` location. -/
def resolveCodexConfigPath (env : CodexEnv) : String :=
  match env.codexConfigPath with
  | some override =>
      if (jsTrim override).length > 0 then pathResolve env.cwd (jsTrim override)
      else pathJoin (pathJoin env.homedir ".codex") "config"
  | none => pathJoin (pathJoin env.homedir ".codex") "config"

/-- `locateExecutable` (codex.ts): a candidate containing a path separator
is checked directly (relative ones resolved first); a bare name is looked
up via the platform locator, whose first non-blank trimmed stdout line
wins; otherwise the not-on-PATH failure. -/
def locateExecutable (env : CodexEnv) (candidate : String) :
    Except EnvFailure String :=
  if candidate.toList.contains '/' ∨ candidate.toList.contains '\\' then
    let resolved := if pathIsAbsolute candidate then candidate else pathResolve env.cwd candidate
    if env.fileExists resolved then .ok resolved
    else .error (.executableAccessFailed resolved)
  else
    match env.whichStdout candidate with
    | some stdout =>
        match ((strSplitOn '\n' stdout).map jsTrim).find? (fun line => line.length > 0) with
        | some firstLine => .ok firstLine
        | none => .error (.executableNotOnPath candidate)
    | none => .error (.executableNotOnPath candidate)

/-- Truthiness of `env.X && env.X.trim().length > 0` for an optional
environment variable. -/
def credentialPresent : Option String → Bool
  | some key => ¬ key.toList.isEmpty ∧ (jsTrim key).length > 0
  | none => false

/-- `CodexProvider.validateEnvironment` (codex.ts): in order, require one
of the two credentials to be present and non-blank, require the resolved
configuration file to exist, then resolve the configured executable.  The
success value is the resolved executable path stored by the provider. -/
def validateEnvironment (env : CodexEnv) (executable : String) :
    Except EnvFailure String :=
  let hasOpenAi := credentialPresent env.openaiApiKey
  let hasCodex := credentialPresent env.codexApiKey
  if ¬ hasOpenAi ∧ ¬ hasCodex then .error .missingCredentials
  else
    let configPath := resolveCodexConfigPath env
    if ¬ env.fileExists configPath then .error (.missingConfig configPath)
    else locateExecutable env executable

/-- The provider-instance field `environmentCheck?: Promise<void>`:
`none` before the first `invoke`, afterwards the settled outcome of the
single validation run. -/
structure CodexProviderState where
  environmentCheck : Option (Except EnvFailure String)
deriving Repr

/-- `CodexProvider.ensureEnvironmentReady` (codex.ts): the first call
stores the validation outcome in the instance field; every later call
returns the stored outcome unchanged.  The environment is a parameter of
each call so that the theorem can express that later calls never consult
it. -/
def ensureEnvironmentReady (env : CodexEnv) (executable : String)
    (st : CodexProviderState) : CodexProviderState × Except EnvFailure String :=
  match st.environmentCheck with
  | some outcome => (st, outcome)
  | none =>
      let outcome := validateEnvironment env executable
      ({ environmentCheck := some outcome }, outcome)

/-! ### Specification-side definitions

These definitions restate, in the specification's words, behaviours whose
embedded counterparts above were transcribed from the source; the
refinement theorems below compare the two. -/

/-- Whether an entry's `role` field is the string `"assistant"`, as the
specification describes the messages scan. -/
def roleIsAssistant (entry : Json) : Bool :=
  match entry.getField "role" with
  | some (.str r) => r = "assistant"
  | _ => false

/-- Specification reading of one messages entry: an assistant entry
contributes its flattened content when that text is non-empty. -/
def assistantEntryTextSpec (entry : Json) : Option String :=
  if roleIsAssistant entry then strTruthy (flattenContent (entry.getField "content"))
  else none

/-- Specification candidate (1): if a `messages` list exists, scan from
the end for the last entry whose role is assistant and whose flattened
content is non-empty. -/
def messagesCandidateSpec (parsed : Json) : Option String :=
  match parsed.getField "messages" with
  | some (.arr messages) =>
      (messages.reverse.find? (fun entry => (assistantEntryTextSpec entry).isSome)).bind
        assistantEntryTextSpec
  | _ => none

/-- Specification candidate (2): the `response.content` field, flattened,
when the text is non-empty. -/
def responseCandidateSpec (parsed : Json) : Option String :=
  strTruthy (flattenContent ((parsed.getField "response").bind
    (fun response => response.getField "content")))

/-- Specification candidate (3): the top-level `output` field, flattened,
when the text is non-empty. -/
def outputCandidateSpec (parsed : Json) : Option String :=
  strTruthy (flattenContent (parsed.getField "output"))

/-- The extractor as the specification states it: the first candidate, in
order, that yields non-empty text; otherwise the missing-assistant-message
failure. -/
def extractAssistantTextSpec (parsed : Json) : Except String String :=
  match [messagesCandidateSpec parsed, responseCandidateSpec parsed,
         outputCandidateSpec parsed].findSome? id with
  | some text => .ok text
  | none => .error missingAssistantMessage

/-- The parsing policy as the claim states it for every raw output string:
trim and attempt a direct parse; on failure retry from the last opening
brace; if that also fails (or no brace exists), fail with the
invalid-format error carrying the first 200 characters of the trimmed
output.  (The source additionally rejects whitespace-only output with a
distinct no-output error before any parse attempt.) -/
def parseCodexJsonSpec (jsonParse : String → Option Json) (output : String) :
    Except CodexParseFailure Json :=
  let trimmed := jsTrim output
  match jsonParse trimmed with
  | some parsed => .ok parsed
  | none =>
      match lastBraceIndex trimmed with
      | some lastBrace =>
          match jsonParse (sliceFrom trimmed lastBrace) with
          | some parsed => .ok parsed
          | none => .error (.invalidFormat (slicePreview trimmed))
      | none => .error (.invalidFormat (slicePreview trimmed))

/-- The resolved base name of an attachment, used to state the mirror
naming rule. -/
def resolvedBase (cwd a : String) : String :=
  pathBasename (pathResolve cwd a)

/-- The mirror file name for the occurrence count `k` of a base name:
the base name itself for the first occurrence, `base.k` afterwards. -/
def mirrorSuffixName (b : String) (k : Nat) : String :=
  if k = 0 then b else b ++ "." ++ toString k

/-- How many attachments before position `i` share the base name `b`
(after resolution). -/
def priorSameBase (cwd : String) (atts : List String) (i : Nat) (b : String) : Nat :=
  ((atts.take i).filter (fun a => resolvedBase cwd a = b)).length

/-- The destination path one `mirrorAttachments` iteration copies to,
given the name counts observed so far. -/
def mirrorDest (cwd filesRoot : String) (counts : List (String × Nat))
    (a : String) : String :=
  pathResolve cwd (pathJoin filesRoot
    (mirrorSuffixName (resolvedBase cwd a) (lookupCount counts (resolvedBase cwd a))))

/-- The value of a `text` field read: the string it holds, if it holds a
string.  Used to state the flattening rule. -/
def textFieldString : Option Json → Option String
  | some (.str s) => some s
  | _ => none

/-- A concrete host environment used by the witnesses below. -/
def sampleEnv : CodexEnv :=
  { openaiApiKey := some "key"
    codexApiKey := none
    codexConfigPath := none
    homedir := "/home/u"
    cwd := "/cwd"
    fileExists := fun _ => true
    whichStdout := fun _ => some "/usr/bin/codex\n" }

/-- A credential-free variant of `sampleEnv`. -/
def sampleEnvNoCreds : CodexEnv :=
  { sampleEnv with openaiApiKey := none, codexApiKey := none }

/-! ### Helper lemmas -/

theorem insertIfAbsent_mem (l : List String) (x y : String) :
    y ∈ insertIfAbsent l x ↔ y ∈ l ∨ y = x := by
  unfold insertIfAbsent
  by_cases h : x ∈ l <;> simp [h]
  exact fun e => e ▸ h

theorem contains_eq_true_iff (l : List String) (x : String) :
    l.contains x = true ↔ x ∈ l :=
  List.elem_iff

theorem string_eq_empty_of_length (s : String) (h : s.length = 0) : s = "" := by
  cases s with
  | mk data =>
      cases data with
      | nil => rfl
      | cons c cs => simp [String.length] at h

/-! ### C6: the preread lists are disjoint -/

/-- C6: for every request, attachment list, guideline-pattern list and
override set, the guideline list and the plain attachment list computed
for the prompt document's preread block share no file path. -/
theorem prereadLists_disjoint (isG : String → Option (List String) → Bool)
    (cwd : String) (request : ProviderRequest) (attachments : Option (List String))
    (options : Option PromptDocumentOptions) (file : String)
    (hg : file ∈ (prereadLists isG cwd request attachments options).1) :
    file ∉ (prereadLists isG cwd request attachments options).2 := by
  intro hp
  unfold prereadLists at hg hp
  simp only [List.mem_filter] at hp
  have := hp.2
  rw [Bool.not_eq_true', ← Bool.not_eq_true] at this
  exact this (contains_eq_true_iff _ _ |>.mpr hg)

/-- Witness for C6 at a concrete instantiation: with one attachment
classified as guideline, the guideline list holds it and the plain list
does not. -/
theorem prereadLists_disjoint_witness :
    "/g.md" ∈ (prereadLists (fun _ _ => true) "/cwd" { prompt := "q" }
      (some ["/g.md"]) none).1 ∧
    "/g.md" ∉ (prereadLists (fun _ _ => true) "/cwd" { prompt := "q" }
      (some ["/g.md"]) none).2 :=
  ⟨by decide, prereadLists_disjoint (fun _ _ => true) "/cwd" { prompt := "q" }
    (some ["/g.md"]) none "/g.md" (by decide)⟩

/-! ### C10 and C1: batch dispatch -/

/-- C10: in dry-run mode, a successful session yields one empty-text
response per request — for every file-reading function (no response file
is consulted) and for every response-reference list, regardless of its
length (the count check is skipped). -/
theorem invokeBatch_dryRun (cwd : String) (config : VSCodeResolvedConfig)
    (requests : List ProviderRequest) (session : BatchSession) (rs : List String)
    (fileContents : String → String)
    (hdry : config.dryRun = true) (hexit : session.exitCode = 0)
    (hrf : session.responseFiles = some rs) :
    invokeBatch cwd config requests session fileContents =
      .ok (requests.map (fun req =>
        { text := ""
          attachments := normalizeAttachments cwd req.attachments
          allAttachments := mergeAttachments cwd
            (requests.map (fun r => normalizeAttachments cwd r.attachments))
          responseFile := none })) := by
  unfold invokeBatch
  by_cases hempty : requests.isEmpty
  · have : requests = [] := by
      cases requests
      · rfl
      · simp [List.isEmpty] at hempty
    simp [hempty, this]
  · simp only [hempty, hrf, hexit, hdry, if_false, if_true, Bool.false_eq_true,
      ne_eq, not_true_eq_false]
    simp [List.map_map, Function.comp_def]

/-- Witness for C10: two requests, a session carrying a single response
reference (a count mismatch), dry-run on — the batch still succeeds with
two empty responses. -/
theorem invokeBatch_dryRun_witness :
    ({ dryRun := true } : VSCodeResolvedConfig).dryRun = true ∧
    ({ exitCode := 0, responseFiles := some ["/r1"] } : BatchSession).exitCode = 0 ∧
    invokeBatch "/cwd" { dryRun := true }
      ([{ prompt := "p1" }, { prompt := "p2" }] : List ProviderRequest)
      { exitCode := 0, responseFiles := some ["/r1"] } (fun _ => "ignored") =
      .ok (([{ prompt := "p1" }, { prompt := "p2" }] : List ProviderRequest).map (fun req =>
        { text := ""
          attachments := normalizeAttachments "/cwd" req.attachments
          allAttachments := mergeAttachments "/cwd"
            (([{ prompt := "p1" }, { prompt := "p2" }] : List ProviderRequest).map
              (fun r => normalizeAttachments "/cwd" r.attachments))
          responseFile := none })) :=
  ⟨rfl, rfl, invokeBatch_dryRun "/cwd" { dryRun := true }
    ([{ prompt := "p1" }, { prompt := "p2" }] : List ProviderRequest)
    { exitCode := 0, responseFiles := some ["/r1"] } ["/r1"] (fun _ => "ignored")
    rfl rfl rfl⟩

theorem readBatchResponses_length (fileContents : String → String)
    (normalized : List (ProviderRequest × Option (List String)))
    (combined : Option (List String)) :
    ∀ (rs : List String) (index : Nat),
      (readBatchResponses fileContents normalized combined rs index).length = rs.length := by
  intro rs
  induction rs with
  | nil => intro index; rfl
  | cons rf rest ih => intro index; simp [readBatchResponses, ih]

theorem readBatchResponses_get? (fileContents : String → String)
    (normalized : List (ProviderRequest × Option (List String)))
    (combined : Option (List String)) :
    ∀ (rs : List String) (index j : Nat),
      (readBatchResponses fileContents normalized combined rs index).get? j =
        (rs.get? j).map (fun rf =>
          { text := fileContents rf
            attachments :=
              match normalized.get? (index + j) with
              | some p => p.2
              | none => none
            allAttachments := combined
            responseFile := some rf }) := by
  intro rs
  induction rs with
  | nil => intro index j; cases j <;> rfl
  | cons rf rest ih =>
      intro index j
      cases j with
      | zero => rfl
      | succ j =>
          simp only [readBatchResponses, List.get?_cons_succ, ih,
            Nat.add_succ, Nat.succ_add]

/-- C1: with dry-run disabled and at least one request, a successful
session whose response-reference count differs from the request count
fails the whole batch (error, no responses); an equal count yields exactly
one response per request, in request order, the i-th text being the
content of the i-th reference and the i-th diagnostic metadata carrying
the i-th request's own normalized attachment list. -/
theorem invokeBatch_count_contract (cwd : String) (config : VSCodeResolvedConfig)
    (requests : List ProviderRequest) (session : BatchSession) (rs : List String)
    (fileContents : String → String)
    (hne : requests ≠ []) (hdry : config.dryRun = false)
    (hexit : session.exitCode = 0) (hrf : session.responseFiles = some rs) :
    (rs.length ≠ requests.length →
      invokeBatch cwd config requests session fileContents =
        .error ("VS Code batch returned " ++ toString rs.length ++
          " responses for " ++ toString requests.length ++ " requests")) ∧
    (rs.length = requests.length →
      ∃ out, invokeBatch cwd config requests session fileContents = .ok out ∧
        out.length = requests.length ∧
        ∀ i, i < requests.length →
          ∃ rf req, rs.get? i = some rf ∧ requests.get? i = some req ∧
            out.get? i = some
              { text := fileContents rf
                attachments := normalizeAttachments cwd req.attachments
                allAttachments := mergeAttachments cwd
                  (requests.map (fun r => normalizeAttachments cwd r.attachments))
                responseFile := some rf }) := by
  have hempty : requests.isEmpty = false := by
    cases requests
    · exact absurd rfl hne
    · rfl
  constructor
  · intro hlen
    unfold invokeBatch
    simp [hempty, hrf, hexit, hdry, hlen]
  · intro hlen
    refine ⟨readBatchResponses fileContents
      (requests.map (fun req => (req, normalizeAttachments cwd req.attachments)))
      (mergeAttachments cwd
        ((requests.map (fun req => (req, normalizeAttachments cwd req.attachments))).map (·.2)))
      rs 0, ?_, ?_, ?_⟩
    · unfold invokeBatch
      simp [hempty, hrf, hexit, hdry, hlen]
    · rw [readBatchResponses_length]
      exact hlen
    · intro i hi
      have hirs : i < rs.length := hlen ▸ hi
      obtain ⟨rf, hrfget⟩ : ∃ rf, rs.get? i = some rf :=
        ⟨rs.get ⟨i, hirs⟩, List.get?_eq_get hirs⟩
      obtain ⟨req, hreqget⟩ : ∃ req, requests.get? i = some req :=
        ⟨requests.get ⟨i, hi⟩, List.get?_eq_get hi⟩
      refine ⟨rf, req, hrfget, hreqget, ?_⟩
      rw [readBatchResponses_get?, hrfget]
      simp only [Option.map_some, Nat.zero_add, List.get?_map, hreqget,
        Option.map_some, List.map_map, Function.comp_def]
      simp

/-- Witness for C1 at two requests: one reference fails the batch, two
references succeed in order with the per-request metadata. -/
theorem invokeBatch_count_contract_witness :
    (([{ prompt := "p1", attachments := some ["/a.txt"] }, { prompt := "p2" }] :
        List ProviderRequest) ≠ []) ∧
    ((["/r1"] : List String).length ≠ 2 →
      invokeBatch "/cwd" { dryRun := false }
        ([{ prompt := "p1", attachments := some ["/a.txt"] }, { prompt := "p2" }] :
          List ProviderRequest)
        { exitCode := 0, responseFiles := some ["/r1"] }
        (fun f => if f = "/r1" then "one" else "two") =
        .error ("VS Code batch returned " ++ toString (["/r1"] : List String).length ++
          " responses for " ++ toString
            ([{ prompt := "p1", attachments := some ["/a.txt"] }, { prompt := "p2" }] :
              List ProviderRequest).length ++ " requests")) := by
  refine ⟨by decide, ?_⟩
  have h := invokeBatch_count_contract "/cwd" { dryRun := false }
    ([{ prompt := "p1", attachments := some ["/a.txt"] }, { prompt := "p2" }] :
      List ProviderRequest)
    { exitCode := 0, responseFiles := some ["/r1"] } ["/r1"]
    (fun f => if f = "/r1" then "one" else "two")
    (by decide) rfl rfl rfl
  exact fun _ => h.1 (by decide)

/-! ### C8: memoized environment validation -/

/-- C8: environment validation runs at most once per provider instance —
the first call stores the outcome and every later call returns the stored
outcome for any (possibly different) host environment, so a cached failure
keeps failing; and the validation itself checks, in order, credentials,
configuration file, executable resolution. -/
theorem ensureEnvironmentReady_memoized (env later : CodexEnv)
    (executable laterExecutable : String) (st : CodexProviderState)
    (outcome : Except EnvFailure String)
    (hstored : st.environmentCheck = some outcome) :
    (ensureEnvironmentReady env executable { environmentCheck := none } =
      ({ environmentCheck := some (validateEnvironment env executable) },
        validateEnvironment env executable)) ∧
    (ensureEnvironmentReady later laterExecutable st = (st, outcome)) ∧
    (credentialPresent env.openaiApiKey = false →
      credentialPresent env.codexApiKey = false →
      validateEnvironment env executable = .error .missingCredentials) ∧
    ((credentialPresent env.openaiApiKey = true ∨
        credentialPresent env.codexApiKey = true) →
      env.fileExists (resolveCodexConfigPath env) = false →
      validateEnvironment env executable =
        .error (.missingConfig (resolveCodexConfigPath env))) ∧
    ((credentialPresent env.openaiApiKey = true ∨
        credentialPresent env.codexApiKey = true) →
      env.fileExists (resolveCodexConfigPath env) = true →
      validateEnvironment env executable = locateExecutable env executable) := by
  refine ⟨rfl, ?_, ?_, ?_, ?_⟩
  · unfold ensureEnvironmentReady
    rw [hstored]
  · intro h1 h2
    unfold validateEnvironment
    simp [h1, h2]
  · intro hcred hcfg
    unfold validateEnvironment
    rcases hcred with h | h <;> simp [h, hcfg]
  · intro hcred hcfg
    unfold validateEnvironment
    rcases hcred with h | h <;> simp [h, hcfg]

/-- Witness for C8: a provider instance holding a cached
missing-credentials failure returns that failure unchanged on a later
call against a fully healthy environment, and the credential check fires
first on a credential-free environment. -/
theorem ensureEnvironmentReady_memoized_witness :
    ({ environmentCheck := some (.error .missingCredentials) } :
        CodexProviderState).environmentCheck =
      some (Except.error EnvFailure.missingCredentials) ∧
    ensureEnvironmentReady sampleEnv "codex"
      { environmentCheck := some (.error .missingCredentials) } =
      ({ environmentCheck := some (.error .missingCredentials) },
        .error .missingCredentials) ∧
    validateEnvironment sampleEnvNoCreds "codex" = .error .missingCredentials := by
  have h := ensureEnvironmentReady_memoized sampleEnvNoCreds sampleEnv "codex" "codex"
    { environmentCheck := some (.error .missingCredentials) }
    (.error .missingCredentials) rfl
  exact ⟨rfl, h.2.1, h.2.2.1 rfl rfl⟩

/-! ### C7: timeout flag and termination triggers -/

theorem runTrace_close_spec (pre : List RunEvent) :
    ∀ (st : RunnerState) (code : Option Int) (suffix : List RunEvent),
      (∀ e ∈ pre, e.isClose = false) →
      ∃ r, runTrace st (pre ++ RunEvent.close code :: suffix) = some r ∧
        r.timedOut = (st.timedOut || decide (RunEvent.timerFired ∈ pre)) ∧
        r.killCount = st.killCount + (pre.filter RunEvent.isKillTrigger).length ∧
        r.exitCode = code.getD (-1) ∧
        runTrace st (pre ++ RunEvent.close code :: suffix) =
          runTrace st (pre ++ [RunEvent.close code]) := by
  induction pre with
  | nil =>
      intro st code suffix _
      exact ⟨_, rfl, by simp, by simp [runTrace], rfl, rfl⟩
  | cons e rest ih =>
      intro st code suffix h
      have he : e.isClose = false := h e (List.mem_cons_self e rest)
      have hrest : ∀ x ∈ rest, x.isClose = false :=
        fun x hx => h x (List.mem_cons_of_mem e hx)
      cases e with
      | close c => simp [RunEvent.isClose] at he
      | abortFired =>
          obtain ⟨r, hr, ht, hk, hx, hs⟩ := ih (killChild st) code suffix hrest
          refine ⟨r, hr, ?_, ?_, hx, hs⟩
          · simpa [killChild, RunEvent.timerFired] using ht
          · rw [hk]
            simp [killChild, RunEvent.isKillTrigger, List.filter]
            omega
      | timerFired =>
          obtain ⟨r, hr, ht, hk, hx, hs⟩ := ih (killChild { st with timedOut := true }) code suffix hrest
          refine ⟨r, hr, ?_, ?_, hx, hs⟩
          · simpa [killChild] using ht
          · rw [hk]
            simp [killChild, RunEvent.isKillTrigger, List.filter]
            omega
      | stdoutData chunk =>
          obtain ⟨r, hr, ht, hk, hx, hs⟩ := ih { st with stdout := st.stdout ++ chunk } code suffix hrest
          refine ⟨r, hr, ?_, ?_, hx, hs⟩
          · simpa using ht
          · rw [hk]
            simp [RunEvent.isKillTrigger, List.filter]
      | stderrData chunk =>
          obtain ⟨r, hr, ht, hk, hx, hs⟩ := ih { st with stderr := st.stderr ++ chunk } code suffix hrest
          refine ⟨r, hr, ?_, ?_, hx, hs⟩
          · simpa using ht
          · rw [hk]
            simp [RunEvent.isKillTrigger, List.filter]

/-- C7: for any run in which the child eventually closes, the resulting
timed-out flag is true exactly when the timeout timer fired before the
close — in particular a run terminated only by the external abort signal
reports `timedOut = false`; both triggers funnel into the same
`child.kill` action (`killChild`), whose invocations the result counts;
and events delivered after the close (such as a late kill) leave the
result unchanged, modelling that killing an exited process is safe. -/
theorem defaultCodexRunner_timeout_semantics (pre suffix : List RunEvent)
    (code : Option Int) (hpre : ∀ e ∈ pre, e.isClose = false) :
    ((defaultCodexRunner (pre ++ RunEvent.close code :: suffix)).map
        (fun r => r.timedOut) = some (decide (RunEvent.timerFired ∈ pre))) ∧
    ((defaultCodexRunner (pre ++ RunEvent.close code :: suffix)).map
        (fun r => r.killCount) =
      some (pre.filter RunEvent.isKillTrigger).length) ∧
    defaultCodexRunner (pre ++ RunEvent.close code :: suffix) =
      defaultCodexRunner (pre ++ [RunEvent.close code]) := by
  obtain ⟨r, hr, ht, hk, _, hs⟩ :=
    runTrace_close_spec pre
      { stdout := "", stderr := "", timedOut := false, killCount := 0 } code suffix hpre
  refine ⟨?_, ?_, hs⟩
  · rw [show defaultCodexRunner (pre ++ RunEvent.close code :: suffix) = some r from hr]
    show some r.timedOut = some (decide (RunEvent.timerFired ∈ pre))
    rw [ht]
    simp
  · rw [show defaultCodexRunner (pre ++ RunEvent.close code :: suffix) = some r from hr]
    show some r.killCount = some (pre.filter RunEvent.isKillTrigger).length
    rw [hk]
    simp

/-- Witness for C7: an abort-only run closes with the timed-out flag
unset, one kill request issued, and a kill delivered after the close does
not change the result. -/
theorem defaultCodexRunner_timeout_semantics_witness :
    (∀ e ∈ [RunEvent.abortFired], e.isClose = false) ∧
    ((defaultCodexRunner ([RunEvent.abortFired] ++
          RunEvent.close (some 143) :: [RunEvent.abortFired])).map
        (fun r => r.timedOut) =
      some (decide (RunEvent.timerFired ∈ [RunEvent.abortFired]))) ∧
    ((defaultCodexRunner ([RunEvent.abortFired] ++
          RunEvent.close (some 143) :: [RunEvent.abortFired])).map
        (fun r => r.killCount) =
      some ([RunEvent.abortFired].filter RunEvent.isKillTrigger).length) ∧
    defaultCodexRunner ([RunEvent.abortFired] ++
        RunEvent.close (some 143) :: [RunEvent.abortFired]) =
      defaultCodexRunner ([RunEvent.abortFired] ++ [RunEvent.close (some 143)]) :=
  ⟨by decide, defaultCodexRunner_timeout_semantics [RunEvent.abortFired]
    [RunEvent.abortFired] (some 143) (by decide)⟩

/-! ### C3: parsing policy (corrected at whitespace-only output) -/

/-- Counterexample to C3 as stated: on the empty raw output the code
fails with the distinct no-output error before attempting any parse,
not with the invalid-response-format error the claim prescribes for
every raw output string. -/
theorem parseCodexJson_empty_counterexample :
    parseCodexJson (fun _ => none) "" = .error CodexParseFailure.noOutput ∧
    parseCodexJsonSpec (fun _ => none) "" =
      .error (CodexParseFailure.invalidFormat "") ∧
    parseCodexJson (fun _ => none) "" ≠ parseCodexJsonSpec (fun _ => none) "" := by
  refine ⟨rfl, rfl, ?_⟩
  intro h
  rw [show parseCodexJson (fun _ => none) "" =
        .error CodexParseFailure.noOutput from rfl,
      show parseCodexJsonSpec (fun _ => none) "" =
        .error (CodexParseFailure.invalidFormat "") from rfl] at h
  simp at h

/-- C3 (amended): for every raw output string whose trimmed form is
non-empty, response parsing behaves exactly as the claim states — direct
parse of the trimmed output, retry from the last opening brace, and on
total failure the invalid-format error carrying the first 200 characters
of the trimmed output.  (A whitespace-only output instead fails with the
distinct no-output error before any parse attempt.) -/
theorem parseCodexJson_nonempty_refines (jsonParse : String → Option Json)
    (output : String) (h : jsTrim output ≠ "") :
    parseCodexJson jsonParse output = parseCodexJsonSpec jsonParse output := by
  have hlen : ¬ (jsTrim output).length = 0 :=
    fun hl => h (string_eq_empty_of_length _ hl)
  unfold parseCodexJson parseCodexJsonSpec
  rw [if_neg hlen]
  cases hp : jsonParse (jsTrim output) with
  | some parsed => simp [hp]
  | none =>
      cases hb : lastBraceIndex (jsTrim output) with
      | none => simp [hp, hb]
      | some lastBrace =>
          cases hp2 : jsonParse (sliceFrom (jsTrim output) lastBrace) <;>
            simp [hp, hb, hp2]

/-- Witness for the amended C3 at a concrete non-empty output with a
failing parser. -/
theorem parseCodexJson_nonempty_refines_witness :
    jsTrim "  xy" ≠ "" ∧
    parseCodexJson (fun _ => none) "  xy" = parseCodexJsonSpec (fun _ => none) "  xy" :=
  ⟨by decide, parseCodexJson_nonempty_refines (fun _ => none) "  xy" (by decide)⟩

/-! ### C9: the flattening rule (corrected separator) -/

/-- Counterexample to C9 as stated: the non-empty pieces of an array are
joined with the separator consisting of a space followed by a newline,
not with a plain newline. -/
theorem flattenContent_separator_counterexample :
    flattenContent (some (Json.arr [Json.str "a", Json.str "b"])) = some "a \nb" ∧
    flattenContent (some (Json.arr [Json.str "a", Json.str "b"])) ≠
      some (strJoin "\n" ["a", "b"]) := by
  exact ⟨rfl, by decide⟩

theorem string_length_pos_iff (p : String) : 0 < p.length ↔ ¬ p = "" := by
  constructor
  · intro hpos hpe
    rw [hpe] at hpos
    simp at hpos
  · intro hne
    rcases Nat.eq_zero_or_pos p.length with hz | hpos
    · exact absurd (string_eq_empty_of_length p hz) hne
    · exact hpos

/-- C9 (amended): the flattening rule returns a string as-is; for an
array it keeps the per-element texts (string elements as-is, object
elements via their `text` field when it is a string, all other elements
dropped), drops empty pieces and joins the rest with the separator
`" \n"` (a space followed by a newline), yielding no text if nothing
remains; for a bare object it yields the `text` field when present and a
string; every other value yields no text. -/
theorem flattenContent_characterization :
    (∀ s, flattenContent (some (Json.str s)) = some s) ∧
    (∀ segments,
      flattenContent (some (Json.arr segments)) =
        (if (segments.map segmentText).reduceOption.filter
              (fun part => part.length > 0) = []
         then none
         else some (strJoin " \n" ((segments.map segmentText).reduceOption.filter
           (fun part => part.length > 0))))) ∧
    (∀ fields, flattenContent (some (Json.obj fields)) =
      textFieldString (fields.lookup "text")) ∧
    (∀ s, segmentText (Json.str s) = some s) ∧
    (∀ fields, segmentText (Json.obj fields) =
      textFieldString (fields.lookup "text")) ∧
    (∀ segments, segmentText (Json.arr segments) = none) ∧
    (∀ n, segmentText (Json.num n) = none) ∧
    (∀ b, segmentText (Json.bool b) = none) ∧
    segmentText Json.null = none ∧
    flattenContent none = none ∧
    (∀ n, flattenContent (some (Json.num n)) = none) ∧
    (∀ b, flattenContent (some (Json.bool b)) = none) ∧
    flattenContent (some Json.null) = none := by
  have hobj : ∀ fields, flattenContent (some (Json.obj fields)) =
      textFieldString (fields.lookup "text") := by
    intro fields
    cases h : fields.lookup "text" with
    | none => simp [flattenContent, textFieldString, h]
    | some v => cases v <;> simp [flattenContent, textFieldString, h]
  have hseg : ∀ fields, segmentText (Json.obj fields) =
      textFieldString (fields.lookup "text") := by
    intro fields
    cases h : fields.lookup "text" with
    | none => simp [segmentText, textFieldString, h]
    | some v => cases v <;> simp [segmentText, textFieldString, h]
  refine ⟨fun s => rfl, ?_, hobj, fun s => rfl, hseg,
    fun segments => rfl, fun n => rfl, fun b => rfl, rfl, rfl, fun n => rfl,
    fun b => rfl, rfl⟩
  intro segments
  show (if ((segments.map segmentText).reduceOption.filter
          (fun part => part.length > 0)).length > 0
        then some (strJoin " \n" ((segments.map segmentText).reduceOption.filter
          (fun part => part.length > 0)))
        else none) = _
  generalize ((segments.map segmentText).reduceOption.filter
    (fun part => part.length > 0)) = parts
  by_cases hn : parts = []
  · subst hn; simp
  · simp [hn, List.length_pos.mpr hn]

/-! ### C2: the extraction order -/

theorem findSome?_cons_eq (a : α) (l : List α) (f : α → Option β) :
    (a :: l).findSome? f =
      (match f a with
       | some b => some b
       | none => l.findSome? f) := rfl

theorem findSome?_eq_find?_bind (f : α → Option β) :
    ∀ l : List α, l.findSome? f = (l.find? (fun x => (f x).isSome)).bind f := by
  intro l
  induction l with
  | nil => rfl
  | cons a l ih =>
      rw [findSome?_cons_eq]
      cases hfa : f a with
      | some b => simp [List.find?_cons, hfa]
      | none => simp [List.find?_cons, hfa, ih]

theorem assistantEntryText_eq_spec (entry : Json) :
    assistantEntryText entry = assistantEntryTextSpec entry := by
  cases entry with
  | obj fields =>
      unfold assistantEntryText assistantEntryTextSpec roleIsAssistant
      cases h : Json.getField (Json.obj fields) "role" with
      | none => simp [Json.isObjectLike, h]
      | some v => cases v <;> simp [Json.isObjectLike, h]
  | str s => rfl
  | num n => rfl
  | bool b => rfl
  | null => rfl
  | arr l => rfl

theorem responseCandidate_eq_spec (parsed : Json) :
    (match parsed.getField "response" with
     | some response =>
         if response.isObjectLike then
           strTruthy (flattenContent (response.getField "content"))
         else none
     | none => none) = responseCandidateSpec parsed := by
  unfold responseCandidateSpec
  cases h : parsed.getField "response" with
  | none => simp [h, flattenContent, strTruthy]
  | some response =>
      cases response <;> simp [h, Json.isObjectLike, Json.getField,
        flattenContent, strTruthy]

/-- C2: the extractor returns the first non-empty text produced by
trying, in order, (1) the `messages` list scanned from the end for the
last assistant entry whose flattened content is non-empty, (2) the
`response.content` field flattened, (3) the top-level `output` field
flattened; exhaustion fails with the missing-assistant-message error. -/
theorem extractAssistantText_eq_spec (parsed : Json) :
    extractAssistantText parsed = extractAssistantTextSpec parsed := by
  have hfun : assistantEntryText = assistantEntryTextSpec :=
    funext assistantEntryText_eq_spec
  cases parsed with
  | str s => rfl
  | num n => rfl
  | bool b => rfl
  | null => rfl
  | arr l => rfl
  | obj fields =>
      unfold extractAssistantText extractAssistantTextSpec
      rw [show (Json.obj fields).isObjectLike = true from rfl]
      simp only [not_true, if_false, Bool.true_eq_false, not_false_eq_true,
        if_true, ite_false, ite_true]
      rw [hfun]
      have hmsg : (match (Json.obj fields).getField "messages" with
          | some (Json.arr messages) =>
              List.findSome? assistantEntryTextSpec messages.reverse
          | _ => none) = messagesCandidateSpec (Json.obj fields) := by
        unfold messagesCandidateSpec
        cases h : (Json.obj fields).getField "messages" with
        | none => simp [h]
        | some v => cases v <;> simp [h, findSome?_eq_find?_bind]
      rw [hmsg, responseCandidate_eq_spec,
        show strTruthy (flattenContent ((Json.obj fields).getField "output")) =
          outputCandidateSpec (Json.obj fields) from rfl]
      cases hmc : messagesCandidateSpec (Json.obj fields) <;>
        cases hrc : responseCandidateSpec (Json.obj fields) <;>
          cases hoc : outputCandidateSpec (Json.obj fields) <;>
            simp [findSome?_cons_eq]

/-! ### C5: mirroring order, collision naming and the guideline subset -/

theorem lookupCount_cons (k' : String) (v' : Nat) (rest : List (String × Nat))
    (k2 : String) :
    lookupCount ((k', v') :: rest) k2 = if k2 = k' then v' else lookupCount rest k2 := by
  by_cases h : k2 = k'
  · have hb : (k2 == k') = true := beq_iff_eq.mpr h
    simp [lookupCount, List.lookup, hb, h]
  · have hb : (k2 == k') = false := beq_eq_false_iff_ne.mpr h
    simp [lookupCount, List.lookup, hb, h]

theorem lookupCount_setCount (k : String) (v : Nat) :
    ∀ (counts : List (String × Nat)) (k2 : String),
      lookupCount (setCount counts k v) k2 =
        if k2 = k then v else lookupCount counts k2 := by
  intro counts
  induction counts with
  | nil =>
      intro k2
      rw [show setCount [] k v = [(k, v)] from rfl, lookupCount_cons]
  | cons kv rest ih =>
      obtain ⟨k', v'⟩ := kv
      intro k2
      by_cases hk : k' = k
      · rw [show setCount ((k', v') :: rest) k v = (k, v) :: rest from by
          simp [setCount, hk]]
        rw [lookupCount_cons, lookupCount_cons]
        subst hk
        by_cases h2 : k2 = k' <;> simp [h2]
      · rw [show setCount ((k', v') :: rest) k v = (k', v') :: setCount rest k v from by
          simp [setCount, hk]]
        rw [lookupCount_cons, lookupCount_cons, ih k2]
        have hk2 : ¬ k = k' := fun he => hk he.symm
        by_cases h2 : k2 = k' <;> by_cases h3 : k2 = k <;>
          simp [h2, h3, hk, hk2]

theorem mirrorLoop_fst_acc (cwd filesRoot : String) (origs : List String) :
    ∀ (atts : List String) (counts : List (String × Nat)) (m g : List String),
      ∃ t, (mirrorLoop cwd filesRoot origs atts counts m g).1 = m ++ t ∧
        ∀ (m2 g2 : List String),
          (mirrorLoop cwd filesRoot origs atts counts m2 g2).1 = m2 ++ t := by
  intro atts
  induction atts with
  | nil => exact fun counts m g => ⟨[], by simp [mirrorLoop], fun m2 g2 => by simp [mirrorLoop]⟩
  | cons a rest ih =>
      intro counts m g
      obtain ⟨t, ht, hall⟩ := ih
        (setCount counts (pathBasename (pathResolve cwd a))
          (lookupCount counts (pathBasename (pathResolve cwd a)) + 1))
        (m ++ [pathResolve cwd (pathJoin filesRoot
          (if lookupCount counts (pathBasename (pathResolve cwd a)) = 0
           then pathBasename (pathResolve cwd a)
           else pathBasename (pathResolve cwd a) ++ "." ++
             toString (lookupCount counts (pathBasename (pathResolve cwd a)))))])
        (if origs.contains (pathResolve cwd a) then
          insertIfAbsent g (pathResolve cwd (pathJoin filesRoot
            (if lookupCount counts (pathBasename (pathResolve cwd a)) = 0
             then pathBasename (pathResolve cwd a)
             else pathBasename (pathResolve cwd a) ++ "." ++
               toString (lookupCount counts (pathBasename (pathResolve cwd a))))))
         else g)
      refine ⟨pathResolve cwd (pathJoin filesRoot
          (if lookupCount counts (pathBasename (pathResolve cwd a)) = 0
           then pathBasename (pathResolve cwd a)
           else pathBasename (pathResolve cwd a) ++ "." ++
             toString (lookupCount counts (pathBasename (pathResolve cwd a))))) :: t,
        ?_, ?_⟩
      · show (mirrorLoop cwd filesRoot origs rest _ _ _).1 = _
        rw [ht]
        simp
      · intro m2 g2
        show (mirrorLoop cwd filesRoot origs rest _ _ _).1 = _
        rw [hall]
        simp

theorem mirrorLoop_cons (cwd filesRoot : String) (origs : List String)
    (a : String) (rest : List String) (counts : List (String × Nat))
    (m g : List String) :
    mirrorLoop cwd filesRoot origs (a :: rest) counts m g =
      mirrorLoop cwd filesRoot origs rest
        (setCount counts (resolvedBase cwd a)
          (lookupCount counts (resolvedBase cwd a) + 1))
        (m ++ [mirrorDest cwd filesRoot counts a])
        (if origs.contains (pathResolve cwd a) then
          insertIfAbsent g (mirrorDest cwd filesRoot counts a)
        else g) := rfl

theorem mirrorLoop_length (cwd filesRoot : String) (origs : List String) :
    ∀ (atts : List String) (counts : List (String × Nat)) (m g : List String),
      (mirrorLoop cwd filesRoot origs atts counts m g).1.length =
        m.length + atts.length := by
  intro atts
  induction atts with
  | nil => intro counts m g; simp [mirrorLoop]
  | cons a rest ih =>
      intro counts m g
      rw [mirrorLoop_cons, ih]
      simp
      omega

theorem mirrorLoop_get (cwd filesRoot : String) (origs : List String) :
    ∀ (atts : List String) (counts : List (String × Nat)) (m g : List String)
      (i : Nat) (hi : i < atts.length),
      ((mirrorLoop cwd filesRoot origs atts counts m g).1).get? (m.length + i) =
        some (pathResolve cwd (pathJoin filesRoot
          (mirrorSuffixName (resolvedBase cwd (atts.get ⟨i, hi⟩))
            (lookupCount counts (resolvedBase cwd (atts.get ⟨i, hi⟩)) +
              priorSameBase cwd atts i (resolvedBase cwd (atts.get ⟨i, hi⟩)))))) := by
  intro atts
  induction atts with
  | nil => intro counts m g i hi; exact absurd hi (by simp)
  | cons a rest ih =>
      intro counts m g i hi
      cases i with
      | zero =>
          rw [mirrorLoop_cons]
          obtain ⟨t, ht, -⟩ := mirrorLoop_fst_acc cwd filesRoot origs rest
            (setCount counts (resolvedBase cwd a)
              (lookupCount counts (resolvedBase cwd a) + 1))
            (m ++ [mirrorDest cwd filesRoot counts a])
            (if origs.contains (pathResolve cwd a) then
              insertIfAbsent g (mirrorDest cwd filesRoot counts a)
            else g)
          rw [ht, List.append_assoc,
            List.get?_append_right (by omega : m.length ≤ m.length + 0)]
          simp [mirrorDest, priorSameBase]
      | succ j =>
          have hj : j < rest.length := Nat.lt_of_succ_lt_succ hi
          rw [mirrorLoop_cons]
          have hget := ih (setCount counts (resolvedBase cwd a)
              (lookupCount counts (resolvedBase cwd a) + 1))
            (m ++ [mirrorDest cwd filesRoot counts a])
            (if origs.contains (pathResolve cwd a) then
              insertIfAbsent g (mirrorDest cwd filesRoot counts a)
            else g) j hj
          have hpos : (m ++ [mirrorDest cwd filesRoot counts a]).length + j =
              m.length + (j + 1) := by
            simp
            omega
          rw [hpos] at hget
          rw [hget]
          have hgetel : (a :: rest).get ⟨j + 1, hi⟩ = rest.get ⟨j, hj⟩ := rfl
          rw [hgetel]
          have hps : priorSameBase cwd (a :: rest) (j + 1)
              (resolvedBase cwd (rest.get ⟨j, hj⟩)) =
              (if resolvedBase cwd a = resolvedBase cwd (rest.get ⟨j, hj⟩)
               then 1 else 0) +
                priorSameBase cwd rest j (resolvedBase cwd (rest.get ⟨j, hj⟩)) := by
            unfold priorSameBase
            rw [List.take_succ_cons, List.filter_cons]
            by_cases hpa : resolvedBase cwd a = resolvedBase cwd (rest.get ⟨j, hj⟩) <;>
              simp only [List.get_eq_getElem] at hpa <;> simp [hpa]
            omega
          have harith : lookupCount (setCount counts (resolvedBase cwd a)
                (lookupCount counts (resolvedBase cwd a) + 1))
                (resolvedBase cwd (rest.get ⟨j, hj⟩)) +
              priorSameBase cwd rest j (resolvedBase cwd (rest.get ⟨j, hj⟩)) =
              lookupCount counts (resolvedBase cwd (rest.get ⟨j, hj⟩)) +
                priorSameBase cwd (a :: rest) (j + 1)
                  (resolvedBase cwd (rest.get ⟨j, hj⟩)) := by
            rw [lookupCount_setCount, hps]
            by_cases hb : resolvedBase cwd (rest.get ⟨j, hj⟩) = resolvedBase cwd a
            · rw [if_pos hb, if_pos hb.symm, hb]
              omega
            · rw [if_neg hb, if_neg (fun he => hb he.symm)]
              omega
          rw [harith]

theorem mirrorLoop_gm_mem (cwd filesRoot : String) (origs : List String) :
    ∀ (atts : List String) (counts : List (String × Nat)) (m g : List String)
      (x : String),
      x ∈ (mirrorLoop cwd filesRoot origs atts counts m g).2 ↔
        x ∈ g ∨ ∃ i, ∃ hi : i < atts.length,
          ((mirrorLoop cwd filesRoot origs atts counts m g).1).get?
            (m.length + i) = some x ∧
          origs.contains (pathResolve cwd (atts.get ⟨i, hi⟩)) = true := by
  intro atts
  induction atts with
  | nil =>
      intro counts m g x
      simp [mirrorLoop]
  | cons a rest ih =>
      intro counts m g x
      rw [mirrorLoop_cons]
      rw [ih (setCount counts (resolvedBase cwd a)
          (lookupCount counts (resolvedBase cwd a) + 1))
        (m ++ [mirrorDest cwd filesRoot counts a])
        (if origs.contains (pathResolve cwd a) then
          insertIfAbsent g (mirrorDest cwd filesRoot counts a)
        else g) x]
      obtain ⟨t, ht, -⟩ := mirrorLoop_fst_acc cwd filesRoot origs rest
        (setCount counts (resolvedBase cwd a)
          (lookupCount counts (resolvedBase cwd a) + 1))
        (m ++ [mirrorDest cwd filesRoot counts a])
        (if origs.contains (pathResolve cwd a) then
          insertIfAbsent g (mirrorDest cwd filesRoot counts a)
        else g)
      have hd0 : (mirrorLoop cwd filesRoot origs rest
          (setCount counts (resolvedBase cwd a)
            (lookupCount counts (resolvedBase cwd a) + 1))
          (m ++ [mirrorDest cwd filesRoot counts a])
          (if origs.contains (pathResolve cwd a) then
            insertIfAbsent g (mirrorDest cwd filesRoot counts a)
          else g)).1.get? (m.length + 0) =
          some (mirrorDest cwd filesRoot counts a) := by
        rw [ht, List.append_assoc,
          List.get?_append_right (by omega : m.length ≤ m.length + 0)]
        simp
      have hglen : (m ++ [mirrorDest cwd filesRoot counts a]).length =
          m.length + 1 := by simp
      constructor
      · rintro (hxg2 | ⟨j, hj, hget, hc⟩)
        · by_cases hca : origs.contains (pathResolve cwd a) = true
          · rw [if_pos hca] at hxg2
            rcases (insertIfAbsent_mem g (mirrorDest cwd filesRoot counts a) x).mp
                hxg2 with hxg | rfl
            · exact Or.inl hxg
            · refine Or.inr ⟨0, by simp, ?_, ?_⟩
              · exact hd0
              · exact hca
          · rw [if_neg hca] at hxg2
            exact Or.inl hxg2
        · refine Or.inr ⟨j + 1, by simp; omega, ?_, ?_⟩
          · rw [show m.length + (j + 1) = (m ++ [mirrorDest cwd filesRoot counts a]).length + j from by
              rw [hglen]; omega]
            exact hget
          · exact hc
      · rintro (hxg | ⟨i, hi, hget, hc⟩)
        · left
          by_cases hca : origs.contains (pathResolve cwd a) = true
          · rw [if_pos hca]
            exact (insertIfAbsent_mem g (mirrorDest cwd filesRoot counts a) x).mpr
              (Or.inl hxg)
          · rw [if_neg hca]
            exact hxg
        · cases i with
          | zero =>
              left
              have hxd : x = mirrorDest cwd filesRoot counts a := by
                rw [hd0] at hget
                exact (Option.some.injEq _ _ ▸ hget).symm
              rw [if_pos (show origs.contains (pathResolve cwd a) = true from hc)]
              exact (insertIfAbsent_mem g (mirrorDest cwd filesRoot counts a) x).mpr
                (Or.inr hxd)
          | succ j =>
              refine Or.inr ⟨j, Nat.lt_of_succ_lt_succ (by simpa using hi), ?_, ?_⟩
              · rw [show (m ++ [mirrorDest cwd filesRoot counts a]).length + j =
                    m.length + (j + 1) from by rw [hglen]; omega]
                exact hget
              · exact hc

theorem mirrorAttachments_spec_helper (cwd workspaceRoot : String)
    (origs : List String) (atts : List String) (hne : atts ≠ []) :
    ∃ m, (mirrorAttachments cwd (some atts) workspaceRoot origs).1 = some m ∧
      m.length = atts.length ∧
      (∀ i, ∀ hi : i < atts.length,
        m.get? i = some (pathResolve cwd (pathJoin (pathJoin workspaceRoot FILES_DIR)
          (mirrorSuffixName (resolvedBase cwd (atts.get ⟨i, hi⟩))
            (priorSameBase cwd atts i (resolvedBase cwd (atts.get ⟨i, hi⟩))))))) ∧
      (∀ x, x ∈ (mirrorAttachments cwd (some atts) workspaceRoot origs).2 ↔
        ∃ i, ∃ hi : i < atts.length, m.get? i = some x ∧
          origs.contains (pathResolve cwd (atts.get ⟨i, hi⟩)) = true) := by
  have hempty : atts.isEmpty = false := by
    cases atts
    · exact absurd rfl hne
    · rfl
  have hfst : (mirrorAttachments cwd (some atts) workspaceRoot origs).1 =
      some (mirrorLoop cwd (pathJoin workspaceRoot FILES_DIR) origs atts [] [] []).1 := by
    simp [mirrorAttachments, hempty]
  have hsnd : (mirrorAttachments cwd (some atts) workspaceRoot origs).2 =
      (mirrorLoop cwd (pathJoin workspaceRoot FILES_DIR) origs atts [] [] []).2 := by
    simp [mirrorAttachments, hempty]
  refine ⟨(mirrorLoop cwd (pathJoin workspaceRoot FILES_DIR) origs atts [] [] []).1,
    hfst, ?_, ?_, ?_⟩
  · have := mirrorLoop_length cwd (pathJoin workspaceRoot FILES_DIR) origs atts [] [] []
    simpa using this
  · intro i hi
    have := mirrorLoop_get cwd (pathJoin workspaceRoot FILES_DIR) origs atts [] [] [] i hi
    simpa [lookupCount] using this
  · intro x
    rw [hsnd]
    have := mirrorLoop_gm_mem cwd (pathJoin workspaceRoot FILES_DIR) origs atts [] [] [] x
    simpa using this

/-- C5: for every non-empty attachment list, mirroring returns the
mirrored paths in input order — position `i` is mirrored into the
workspace's `files` directory under its resolved base name when it is the
first occurrence of that base name, and under the `.k` suffix when `k`
earlier attachments share the base name — and the guideline-mirror subset
contains exactly the mirrored paths at positions whose original resolved
path lies in the supplied guideline-originals set. -/
theorem mirrorAttachments_spec (cwd workspaceRoot : String)
    (origs : List String) (atts : List String) (hne : atts ≠ []) :
    ∃ m, (mirrorAttachments cwd (some atts) workspaceRoot origs).1 = some m ∧
      m.length = atts.length ∧
      (∀ i, ∀ hi : i < atts.length,
        m.get? i = some (pathResolve cwd (pathJoin (pathJoin workspaceRoot FILES_DIR)
          (mirrorSuffixName (resolvedBase cwd (atts.get ⟨i, hi⟩))
            (priorSameBase cwd atts i (resolvedBase cwd (atts.get ⟨i, hi⟩))))))) ∧
      (∀ x, x ∈ (mirrorAttachments cwd (some atts) workspaceRoot origs).2 ↔
        ∃ i, ∃ hi : i < atts.length, m.get? i = some x ∧
          origs.contains (pathResolve cwd (atts.get ⟨i, hi⟩)) = true) :=
  mirrorAttachments_spec_helper cwd workspaceRoot origs atts hne

/-- Witness for C5 at a concrete instantiation: two attachments sharing a
base name, the second one a guideline original. -/
theorem mirrorAttachments_spec_witness :
    (["/x/a.txt", "/y/a.txt"] : List String) ≠ [] ∧
    ∃ m, (mirrorAttachments "/cwd" (some ["/x/a.txt", "/y/a.txt"]) "/ws"
        ["/y/a.txt"]).1 = some m ∧
      m.length = (["/x/a.txt", "/y/a.txt"] : List String).length ∧
      (∀ i, ∀ hi : i < (["/x/a.txt", "/y/a.txt"] : List String).length,
        m.get? i = some (pathResolve "/cwd" (pathJoin (pathJoin "/ws" FILES_DIR)
          (mirrorSuffixName
            (resolvedBase "/cwd" ((["/x/a.txt", "/y/a.txt"] : List String).get ⟨i, hi⟩))
            (priorSameBase "/cwd" ["/x/a.txt", "/y/a.txt"] i
              (resolvedBase "/cwd"
                ((["/x/a.txt", "/y/a.txt"] : List String).get ⟨i, hi⟩))))))) ∧
      (∀ x, x ∈ (mirrorAttachments "/cwd" (some ["/x/a.txt", "/y/a.txt"]) "/ws"
          ["/y/a.txt"]).2 ↔
        ∃ i, ∃ hi : i < (["/x/a.txt", "/y/a.txt"] : List String).length,
          m.get? i = some x ∧
          (["/y/a.txt"] : List String).contains
            (pathResolve "/cwd"
              ((["/x/a.txt", "/y/a.txt"] : List String).get ⟨i, hi⟩)) = true) :=
  ⟨by decide, mirrorAttachments_spec "/cwd" "/ws" ["/y/a.txt"]
    ["/x/a.txt", "/y/a.txt"] (by decide)⟩

/-! ### C4: guideline classification survives mirroring -/

theorem collectLoop_mem (isG : String → Option (List String) → Bool)
    (cwd : String) (patterns : Option (List String)) (overrides : List String) :
    ∀ (l acc : List String) (x : String),
      x ∈ collectLoop isG cwd patterns overrides l acc ↔
        x ∈ acc ∨ ∃ a ∈ l, pathResolve cwd a = x ∧
          (overrides.contains x = true ∨
            isG (pathNormalizeSeps x) patterns = true) := by
  intro l
  induction l with
  | nil => intro acc x; simp [collectLoop]
  | cons a rest ih =>
      intro acc x
      by_cases ho : overrides.contains (pathResolve cwd a) = true
      · rw [show collectLoop isG cwd patterns overrides (a :: rest) acc =
            collectLoop isG cwd patterns overrides rest
              (insertIfAbsent acc (pathResolve cwd a)) from by
          simp only [collectLoop]
          rw [if_pos ho]]
        rw [ih, insertIfAbsent_mem]
        constructor
        · rintro ((hacc | rfl) | ⟨b, hb, rfl, hcls⟩)
          · exact Or.inl hacc
          · exact Or.inr ⟨a, by simp, rfl, Or.inl ho⟩
          · exact Or.inr ⟨b, by simp [hb], rfl, hcls⟩
        · rintro (hacc | ⟨b, hb, rfl, hcls⟩)
          · exact Or.inl (Or.inl hacc)
          · rcases List.mem_cons.mp hb with rfl | hbr
            · exact Or.inl (Or.inr rfl)
            · exact Or.inr ⟨b, hbr, rfl, hcls⟩
      · by_cases hg : isG (pathNormalizeSeps (pathResolve cwd a)) patterns = true
        · rw [show collectLoop isG cwd patterns overrides (a :: rest) acc =
              collectLoop isG cwd patterns overrides rest
                (insertIfAbsent acc (pathResolve cwd a)) from by
            simp only [collectLoop]
            rw [if_neg ho, if_pos hg]]
          rw [ih, insertIfAbsent_mem]
          constructor
          · rintro ((hacc | rfl) | ⟨b, hb, rfl, hcls⟩)
            · exact Or.inl hacc
            · exact Or.inr ⟨a, by simp, rfl, Or.inr hg⟩
            · exact Or.inr ⟨b, by simp [hb], rfl, hcls⟩
          · rintro (hacc | ⟨b, hb, rfl, hcls⟩)
            · exact Or.inl (Or.inl hacc)
            · rcases List.mem_cons.mp hb with rfl | hbr
              · exact Or.inl (Or.inr rfl)
              · exact Or.inr ⟨b, hbr, rfl, hcls⟩
        · rw [show collectLoop isG cwd patterns overrides (a :: rest) acc =
              collectLoop isG cwd patterns overrides rest acc from by
            simp only [collectLoop]
            rw [if_neg ho, if_neg hg]]
          rw [ih]
          constructor
          · rintro (hacc | ⟨b, hb, rfl, hcls⟩)
            · exact Or.inl hacc
            · exact Or.inr ⟨b, by simp [hb], rfl, hcls⟩
          · rintro (hacc | ⟨b, hb, rfl, hcls⟩)
            · exact Or.inl hacc
            · rcases List.mem_cons.mp hb with rfl | hbr
              · rcases hcls with hc | hc
                · exact absurd hc ho
                · exact absurd hc hg
              · exact Or.inr ⟨b, hbr, rfl, hcls⟩

theorem collectGuidelineFiles_mem (isG : String → Option (List String) → Bool)
    (cwd : String) (patterns : Option (List String)) (overrides : List String)
    (l : List String) (x : String) :
    x ∈ collectGuidelineFiles isG cwd (some l) patterns overrides ↔
      ∃ a ∈ l, pathResolve cwd a = x ∧
        (overrides.contains x = true ∨
          isG (pathNormalizeSeps x) patterns = true) := by
  cases l with
  | nil => simp [collectGuidelineFiles]
  | cons a rest =>
      rw [show collectGuidelineFiles isG cwd (some (a :: rest)) patterns overrides =
          collectLoop isG cwd patterns overrides (a :: rest) [] from by
        simp [collectGuidelineFiles]]
      rw [collectLoop_mem]
      simp

theorem pathResolve_absolute (cwd p : String) (h : pathIsAbsolute cwd = true) :
    pathIsAbsolute (pathResolve cwd p) = true := by
  unfold pathResolve
  by_cases hp : pathIsAbsolute p = true
  · simp [hp]
  · rw [if_neg (by simpa using hp)]
    unfold pathIsAbsolute at h ⊢
    cases hc : cwd.toList with
    | nil => rw [hc] at h; simp at h
    | cons c cs =>
        rw [hc] at h
        have happ : (cwd ++ "/" ++ p).toList = (c :: cs) ++ ('/' :: p.toList) := by
          have h1 : (cwd ++ "/" ++ p).toList = (cwd ++ "/").toList ++ p.toList := rfl
          have h2 : (cwd ++ "/").toList = cwd.toList ++ ['/'] := rfl
          rw [h1, h2, hc]
          simp
        rw [happ]
        simpa using h

theorem pathResolve_idem (cwd p : String) (h : pathIsAbsolute p = true) :
    pathResolve cwd p = p := by
  simp [pathResolve, h]

/-- C4: in the invoke pipeline, every attachment classified as guideline
before mirroring (by pattern match on its canonical path, no overrides)
has its mirrored copy classified as guideline after mirroring: the
mirrored path at the same position belongs to the guideline list of the
prompt document built over the mirrored attachments with the
guideline-mirror set as override set.  Holds for every guideline
predicate, pattern list and request, with the working directory
absolute. -/
theorem codexInvoke_guideline_preserved
    (isG : String → Option (List String) → Bool) (cwd workspaceRoot : String)
    (request : ProviderRequest) (hcwd : pathIsAbsolute cwd = true)
    (atts : List String)
    (hatts : normalizeAttachments cwd request.attachments = some atts)
    (i : Nat) (hi : i < atts.length)
    (hguide : pathResolve cwd (atts.get ⟨i, hi⟩) ∈
      (collectGuidelineFiles isG cwd (some atts) request.guideline_patterns []).map
        (pathResolve cwd)) :
    ∃ m mi, (codexInvokeLists isG cwd workspaceRoot request).1.1 = some m ∧
      m.get? i = some mi ∧
      mi ∈ (codexInvokeLists isG cwd workspaceRoot request).2.1 := by
  have hdef : codexInvokeLists isG cwd workspaceRoot request =
      (mirrorAttachments cwd (some atts) workspaceRoot
        ((collectGuidelineFiles isG cwd (some atts) request.guideline_patterns []).map
          (pathResolve cwd)),
       prereadLists isG cwd request
         (mirrorAttachments cwd (some atts) workspaceRoot
           ((collectGuidelineFiles isG cwd (some atts) request.guideline_patterns []).map
             (pathResolve cwd))).1
         (some { guidelinePatterns := request.guideline_patterns,
                 guidelineOverrides := some (mirrorAttachments cwd (some atts) workspaceRoot
                   ((collectGuidelineFiles isG cwd (some atts)
                     request.guideline_patterns []).map (pathResolve cwd))).2 })) := by
    unfold codexInvokeLists
    rw [hatts]
  have hne : atts ≠ [] := by
    intro he
    rw [he] at hi
    simp at hi
  obtain ⟨m, hm1, hmlen, hmget, hmgm⟩ := mirrorAttachments_spec_helper cwd workspaceRoot
    ((collectGuidelineFiles isG cwd (some atts) request.guideline_patterns []).map
      (pathResolve cwd)) atts hne
  have hx := hmget i hi
  have hcontains : ((collectGuidelineFiles isG cwd (some atts)
      request.guideline_patterns []).map (pathResolve cwd)).contains
        (pathResolve cwd (atts.get ⟨i, hi⟩)) = true :=
    (contains_eq_true_iff _ _).mpr hguide
  have hmiMem : pathResolve cwd (pathJoin (pathJoin workspaceRoot FILES_DIR)
      (mirrorSuffixName (resolvedBase cwd (atts.get ⟨i, hi⟩))
        (priorSameBase cwd atts i (resolvedBase cwd (atts.get ⟨i, hi⟩))))) ∈
      (mirrorAttachments cwd (some atts) workspaceRoot
        ((collectGuidelineFiles isG cwd (some atts) request.guideline_patterns []).map
          (pathResolve cwd))).2 :=
    (hmgm _).mpr ⟨i, hi, hx, hcontains⟩
  have hpre : (prereadLists isG cwd request
      (mirrorAttachments cwd (some atts) workspaceRoot
        ((collectGuidelineFiles isG cwd (some atts) request.guideline_patterns []).map
          (pathResolve cwd))).1
      (some { guidelinePatterns := request.guideline_patterns,
              guidelineOverrides := some (mirrorAttachments cwd (some atts) workspaceRoot
                ((collectGuidelineFiles isG cwd (some atts)
                  request.guideline_patterns []).map (pathResolve cwd))).2 })).1 =
      collectGuidelineFiles isG cwd
        (mirrorAttachments cwd (some atts) workspaceRoot
          ((collectGuidelineFiles isG cwd (some atts) request.guideline_patterns []).map
            (pathResolve cwd))).1
        request.guideline_patterns
        (mirrorAttachments cwd (some atts) workspaceRoot
          ((collectGuidelineFiles isG cwd (some atts) request.guideline_patterns []).map
            (pathResolve cwd))).2 := by
    unfold prereadLists
    cases request.guideline_patterns <;> rfl
  refine ⟨m, _, by rw [hdef]; exact hm1, hx, ?_⟩
  rw [hdef]
  show _ ∈ (prereadLists isG cwd request _ _).1
  rw [hpre, hm1, collectGuidelineFiles_mem]
  refine ⟨_, List.get?_mem hx, ?_, Or.inl ?_⟩
  · exact pathResolve_idem cwd _ (pathResolve_absolute cwd _ hcwd)
  · exact (contains_eq_true_iff _ _).mpr hmiMem

/-- Witness for C4: one guideline attachment (matched by a concrete
predicate) and one plain attachment; the guideline's mirrored copy stays
classified. -/
theorem codexInvoke_guideline_preserved_witness :
    pathIsAbsolute "/c" = true ∧
    normalizeAttachments "/c" (some ["/g.md", "/a.txt"]) =
      some ["/g.md", "/a.txt"] ∧
    pathResolve "/c" ((["/g.md", "/a.txt"] : List String).get ⟨0, by decide⟩) ∈
      (collectGuidelineFiles (fun p _ => p = "/g.md") "/c" (some ["/g.md", "/a.txt"])
        none []).map (pathResolve "/c") ∧
    ∃ m mi,
      (codexInvokeLists (fun p _ => p = "/g.md") "/c" "/ws"
        { prompt := "q", attachments := some ["/g.md", "/a.txt"] }).1.1 = some m ∧
      m.get? 0 = some mi ∧
      mi ∈ (codexInvokeLists (fun p _ => p = "/g.md") "/c" "/ws"
        { prompt := "q", attachments := some ["/g.md", "/a.txt"] }).2.1 :=
  ⟨rfl, by decide, by decide,
    codexInvoke_guideline_preserved (fun p _ => p = "/g.md") "/c" "/ws"
      { prompt := "q", attachments := some ["/g.md", "/a.txt"] } rfl
      ["/g.md", "/a.txt"] (by decide) 0 (by decide) (by decide)⟩
